import Mathlib

/-!
Verification of the advisory consensus orchestration engine of the
`medadvisors` repository (src/app.py, src/advisors/services/meeting_fast.py).

The Python code is shallowly embedded: Python strings are Lean `String`s,
but every string primitive the code relies on (strip, splitlines,
split(".", 1), startswith, slicing) is re-implemented structurally over
`String.data` (`List Char`) so that all definitions are executable and
kernel-reducible.  Model invocations (`_chat`, an OpenAI chat-completions
call) are modelled as an abstract function returning `Except Unit String`:
`.error ()` models a raised exception, `.ok s` models a returned content
string (the Python code maps a missing content to `""`).
-/

/-- Python whitespace characters recognised by `str.strip()` (ASCII part). -/
def pyIsWs (c : Char) : Bool :=
  c = ' ' || c = '\t' || c = '\n' || c = '\r' || c = '\x0b' || c = '\x0c'

/-- `str.strip()` on the character list: drop whitespace at both ends. -/
def stripChars (cs : List Char) : List Char :=
  ((cs.dropWhile pyIsWs).reverse.dropWhile pyIsWs).reverse

/-- `str.strip()`. -/
def pyStrip (s : String) : String :=
  String.mk (stripChars s.data)

/-- `str.splitlines()` restricted to `'\n'` line boundaries (the only
boundary occurring in the inputs considered here).  Unlike Python we keep a
trailing empty piece; it is discarded downstream exactly like any blank
line, so the observable behaviour agrees on `'\n'`-separated text. -/
def splitOnNl : List Char → List (List Char)
  | [] => [[]]
  | c :: cs =>
    if c = '\n' then [] :: splitOnNl cs
    else
      match splitOnNl cs with
      | [] => [[c]]
      | l :: ls => (c :: l) :: ls

/-- `str.split(".", 1)`: `some (before, after)` at the first `'.'`, or
`none` when the string contains no `'.'`. -/
def splitDot1 : List Char → Option (List Char × List Char)
  | [] => none
  | c :: cs =>
    if c = '.' then some ([], cs)
    else (splitDot1 cs).map (fun p => (c :: p.1, p.2))

/-- `line[0].isdigit()` (ASCII digits; `false` on an empty string). -/
def lineHeadIsDigit (s : String) : Bool :=
  match s.data with
  | [] => false
  | c :: _ => c.isDigit

/-- Strip the leading "`<number>.`" token and/or a bullet marker from one
already-stripped non-blank line, following src/app.py:826-832:
if the line starts with a digit, drop up to and including the first dot and
re-strip; then if it starts with `"- "` or `"• "`, drop those two
characters and re-strip. -/
def strip_marker (line : String) : String :=
  let l1 :=
    if lineHeadIsDigit line then
      match splitDot1 line.data with
      | some p => pyStrip (String.mk p.2)
      | none => line
    else line
  if "- ".data.isPrefixOf l1.data || "• ".data.isPrefixOf l1.data then
    pyStrip (String.mk (l1.data.drop 2))
  else l1

/-- The per-line parsing loop of `generate_clarifying_questions`
(src/app.py:820-832): split the response into lines, strip each line, skip
blank lines, and strip numbering/bullet markers from the rest. -/
def parse_questions (content : String) : List String :=
  (splitOnNl content.data).filterMap (fun lcs =>
    let line := pyStrip (String.mk lcs)
    if line = "" then none else some (strip_marker line))

/-- One step of the deduplication loop of src/app.py:834-837:
`if q and q not in uniq: uniq.append(q)`. -/
def dedupe_step (acc : List String) (q : String) : List String :=
  if q ≠ "" ∧ q ∉ acc then acc ++ [q] else acc

/-- The question-extractor part of `generate_clarifying_questions`
(src/app.py:819-838), as a function of the model response text: parse
candidate questions line by line, deduplicate non-empty candidates keeping
first occurrences, and truncate to `max_questions`. -/
def extract_questions (content : String) (max_questions : Nat) : List String :=
  ((parse_questions content).foldl dedupe_step []).take max_questions

/-- The dedup fold only ever appends: its result is the accumulator
followed by a sublist of the processed candidates. -/
theorem dedupe_foldl_sublist (qs : List String) :
    ∀ acc, ∃ r, qs.foldl dedupe_step acc = acc ++ r ∧ r.Sublist qs := by
  induction qs with
  | nil => intro acc; exact ⟨[], by simp⟩
  | cons q rest ih =>
    intro acc
    by_cases h : q ≠ "" ∧ q ∉ acc
    · obtain ⟨r, hr, hs⟩ := ih (acc ++ [q])
      refine ⟨q :: r, ?_, List.Sublist.cons₂ q hs⟩
      simp only [List.foldl_cons, dedupe_step, if_pos h] at hr ⊢
      simpa using hr
    · obtain ⟨r, hr, hs⟩ := ih acc
      refine ⟨r, ?_, hs.cons q⟩
      simpa only [List.foldl_cons, dedupe_step, if_neg h] using hr

/-- The dedup fold preserves the no-duplicates invariant of `uniq`. -/
theorem dedupe_foldl_nodup (qs : List String) :
    ∀ acc, acc.Nodup → (qs.foldl dedupe_step acc).Nodup := by
  induction qs with
  | nil => intro acc h; simpa using h
  | cons q rest ih =>
    intro acc hacc
    simp only [List.foldl_cons]
    by_cases h : q ≠ "" ∧ q ∉ acc
    · refine ih _ ?_
      simp only [dedupe_step, if_pos h]
      simpa [List.nodup_append] using ⟨hacc, h.2⟩
    · simpa only [dedupe_step, if_neg h] using ih _ hacc

/-- C8 counterexample: the extractor keeps non-blank lines that carry no
numbering and no bullet marker.  The input `"hello"` contains no numbered
or bulleted line (its single line neither starts with a digit nor with
`"- "` nor `"• "`), yet the extractor returns `["hello"]`, not the empty
list the claim requires. -/
theorem extractor_unmarked_line_cex :
    extract_questions "hello" 5 = ["hello"] ∧
    extract_questions "hello" 5 ≠ [] ∧
    lineHeadIsDigit "hello" = false ∧
    "- ".data.isPrefixOf "hello".data = false ∧
    "• ".data.isPrefixOf "hello".data = false := by
  refine ⟨by decide, by decide, by decide, by decide, by decide⟩

/-- C8 (amended): the extractor deduplicates candidates by exact text
match in first-seen order (its output is duplicate-free and a sublist of
the parsed candidates), truncates to at most `n`, never pads or
fabricates; the input `"1. Is it painful?\n2. Since when?\n2. Since
when?\n"` with `n = 5` yields exactly `["Is it painful?", "Since when?"]`;
and an input all of whose lines are blank yields the empty list.  (Every
non-blank line is a candidate, marker or not, so only blank-only input is
guaranteed to produce `[]`.) -/
theorem extractor_spec (content : String) (n : Nat) :
    extract_questions "1. Is it painful?\n2. Since when?\n2. Since when?\n" 5
      = ["Is it painful?", "Since when?"] ∧
    (extract_questions content n).length ≤ n ∧
    (extract_questions content n).Nodup ∧
    (extract_questions content n).Sublist (parse_questions content) ∧
    ((∀ lcs ∈ splitOnNl content.data, pyStrip (String.mk lcs) = "") →
      extract_questions content n = []) := by
  refine ⟨by decide, List.length_take_le n _, ?_, ?_, ?_⟩
  · exact ((dedupe_foldl_nodup _ [] List.nodup_nil).sublist
      (List.take_sublist n _) : _)
  · obtain ⟨r, hr, hs⟩ := dedupe_foldl_sublist (parse_questions content) []
    simp only [List.nil_append] at hr
    exact ((List.take_sublist n _).trans (hr ▸ hs) : _)
  · intro hblank
    have hpq : parse_questions content = [] := by
      simp only [parse_questions, List.filterMap_eq_nil_iff]
      intro lcs hl
      simp [hblank lcs hl]
    simp [extract_questions, hpq]

/-- Witness for `extractor_spec` at a concrete input. -/
theorem extractor_spec_witness :
    extract_questions "1. Is it painful?\n2. Since when?\n2. Since when?\n" 5
      = ["Is it painful?", "Since when?"] ∧
    (extract_questions "a\nb" 1).length ≤ 1 ∧
    (extract_questions "a\nb" 1).Nodup ∧
    (extract_questions "a\nb" 1).Sublist (parse_questions "a\nb") ∧
    ((∀ lcs ∈ splitOnNl "a\nb".data, pyStrip (String.mk lcs) = "") →
      extract_questions "a\nb" 1 = []) :=
  extractor_spec "a\nb" 1

/-!
## Rate limiter (src/app.py:505-520)

`_rate_limit_store` is a process-wide `defaultdict(lambda: deque(maxlen=100))`
mapping a caller identity to its queue of admitted timestamps; it is read and
mutated only by `_rate_limit_ok`.  We model one identity's queue explicitly as
a `List Int` (oldest first, as the deque is only appended on the right and
popped on the left), and `now = int(time.time())` as an `Int` argument.
The `maxlen=100` bound of the deque is never reached (the function never lets
the queue grow beyond `max_calls`), so it is not modelled.
-/

/-- The lazy expiry loop of src/app.py:515-516:
`while q and now - q[0] >= window_s: q.popleft()`. -/
def dropOld (now window : Int) : List Int → List Int
  | [] => []
  | t :: ts => if window ≤ now - t then dropOld now window ts else t :: ts

/-- `_rate_limit_ok` (src/app.py:510-520) acting on one identity's queue:
drop expired timestamps from the front, then reject if the remaining count
reaches `max_calls`, else append `now` and accept.  Returns the decision and
the queue as left in the store. -/
def _rate_limit_ok (now window_s : Int) (max_calls : Nat) (q : List Int) :
    Bool × List Int :=
  let q2 := dropOld now window_s q
  if max_calls ≤ q2.length then (false, q2)
  else (true, q2 ++ [now])

/-- A sequence of `_rate_limit_ok` calls for one identity, threading the
stored queue; returns the list of decisions and the final queue. -/
def admitSeq (window_s : Int) (max_calls : Nat) (q : List Int) :
    List Int → List Bool × List Int
  | [] => ([], q)
  | now :: rest =>
    let r := _rate_limit_ok now window_s max_calls q
    let tail := admitSeq window_s max_calls r.2 rest
    (r.1 :: tail.1, tail.2)

/-- C5 counterexample: a timestamp exactly `window` seconds old is *not*
"older than `now - window`", so by the claim it survives the lazy drop; with
`window = 60`, `max = 3`... here `window = 60`, `max = 1`, queue `[0]` and
`now = 60`, the claim prescribes rejection (remaining count `1 ≥ 1`, window
unchanged).  The code instead drops the boundary timestamp
(`now - q[0] >= window_s`) and admits, returning `true` with queue `[60]`. -/
theorem rate_limit_boundary_cex :
    _rate_limit_ok 60 60 1 [0] = (true, [60]) ∧
    ¬ ((0 : Int) < 60 - 60) ∧
    1 ≤ ([(0 : Int)] : List Int).length := by
  refine ⟨by decide, by decide, by decide⟩

/-- `dropOld` removes a prefix; on a chronologically sorted queue it removes
exactly the timestamps whose age reaches the window. -/
theorem dropOld_sorted_filter (now window : Int) :
    ∀ q : List Int, q.Pairwise (· ≤ ·) →
      dropOld now window q = q.filter (fun t => decide (now - t < window)) := by
  intro q
  induction q with
  | nil => intro _; rfl
  | cons t ts ih =>
    intro hp
    rw [List.pairwise_cons] at hp
    by_cases h : window ≤ now - t
    · have hf : (fun t => decide (now - t < window)) t = false := by
        simp [not_lt.mpr h]
      simp only [dropOld, if_pos h, List.filter_cons, hf]
      exact ih hp.2
    · have ht : now - t < window := lt_of_not_le h
      have hf : (fun t => decide (now - t < window)) t = true := by simp [ht]
      have hrest : ts.filter (fun t => decide (now - t < window)) = ts := by
        refine List.filter_eq_self.mpr (fun t' ht' => ?_)
        have : now - t' ≤ now - t := by
          have := hp.1 t' ht'
          omega
        simp; omega
      simp only [dropOld, if_neg h, List.filter_cons, hf, if_true, hrest]

/-- C5 (amended): on a chronologically ordered queue, `admit` first lazily
drops the timestamps whose age `now - t` is at least the window (not only
those strictly older than `now - window`: a timestamp exactly `window`
seconds old is dropped too), then returns `false` with the queue unchanged
if the remaining count is at or above the maximum, and otherwise appends
`now` and returns `true`.  With window 60 and maximum 3, four calls for the
same identity within the window yield `true, true, true, false`, and a later
call after the window has passed yields `true` again. -/
theorem rate_limit_admit_spec (now window : Int) (maxCalls : Nat)
    (q : List Int) (hsort : q.Pairwise (· ≤ ·)) :
    (_rate_limit_ok now window maxCalls q =
      let kept := q.filter (fun t => decide (now - t < window))
      if maxCalls ≤ kept.length then (false, kept) else (true, kept ++ [now])) ∧
    (admitSeq 60 3 [] [0, 10, 20, 30]).1 = [true, true, true, false] ∧
    (_rate_limit_ok 70 60 3 (admitSeq 60 3 [] [0, 10, 20, 30]).2).1 = true := by
  refine ⟨?_, by decide, by decide⟩
  show _rate_limit_ok now window maxCalls q = _
  rw [_rate_limit_ok, dropOld_sorted_filter now window q hsort]

/-- Witness for `rate_limit_admit_spec` at a concrete sorted queue. -/
theorem rate_limit_admit_spec_witness :
    (_rate_limit_ok 100 60 3 [50, 90] =
      let kept := [(50 : Int), 90].filter (fun t => decide (100 - t < 60))
      if 3 ≤ kept.length then (false, kept) else (true, kept ++ [100])) ∧
    (admitSeq 60 3 [] [0, 10, 20, 30]).1 = [true, true, true, false] ∧
    (_rate_limit_ok 70 60 3 (admitSeq 60 3 [] [0, 10, 20, 30]).2).1 = true :=
  rate_limit_admit_spec 100 60 3 [50, 90] (by decide)

/-- One admission check never grows the queue beyond `max_calls`. -/
theorem rate_limit_len_le (now window : Int) (maxCalls : Nat) (q : List Int)
    (h : q.length ≤ maxCalls) :
    ((_rate_limit_ok now window maxCalls q).2).length ≤ maxCalls := by
  have hdrop : ∀ l : List Int, (dropOld now window l).length ≤ l.length := by
    intro l
    induction l with
    | nil => simp [dropOld]
    | cons t ts ih =>
      by_cases hc : window ≤ now - t
      · simp only [dropOld, if_pos hc, List.length_cons]
        omega
      · simp [dropOld, if_neg hc]
  rw [_rate_limit_ok]
  by_cases hm : maxCalls ≤ (dropOld now window q).length
  · simp only [if_pos hm]
    exact le_trans (hdrop q) h
  · simp only [if_neg hm, List.length_append, List.length_cons,
      List.length_nil]
    omega

/-- C9: starting from an empty rate window, after any sequence of admission
checks the stored queue holds at most `max_calls` timestamps — in
particular at most `max_calls` of them lie inside the trailing window at
any instant.  Expired timestamps are removed only lazily, inside the
admission check itself (`dropOld` is invoked from `_rate_limit_ok` alone,
which is the only operation of the embedding that touches the queue). -/
theorem rate_window_bounded (window : Int) (maxCalls : Nat)
    (times : List Int) :
    ((admitSeq window maxCalls [] times).2).length ≤ maxCalls ∧
    ∀ now : Int,
      (((admitSeq window maxCalls [] times).2).filter
        (fun t => decide (now - t < window))).length ≤ maxCalls := by
  have main : ∀ (ts : List Int) (q : List Int), q.length ≤ maxCalls →
      ((admitSeq window maxCalls q ts).2).length ≤ maxCalls := by
    intro ts
    induction ts with
    | nil => intro q h; exact h
    | cons t rest ih =>
      intro q h
      exact ih _ (rate_limit_len_le t window maxCalls q h)
  have h0 : (([] : List Int)).length ≤ maxCalls := by simp
  refine ⟨main times [] h0, fun now => ?_⟩
  exact le_trans (List.length_filter_le _ _) (main times [] h0)

/-!
## Fast-path orchestrator (src/app.py:892-943)

`run_fast_completions` fans the agenda out to every member spec, collects
the outputs with per-member failure isolation, and runs one lead synthesis
call.  `_chat` (src/app.py:880-889) is modelled as an abstract capability
`ChatFn`; `.error ()` models a raised exception, `.ok s` the returned
content (`""` when the response carried no content).  The sibling copy in
src/advisors/services/meeting_fast.py:19-65 differs only in running the
member calls sequentially — producing the same output list in the same
order — and in its lead closing sentence; the claims are settled on the
app.py variant, which is the one the UI invokes.
-/

/-- `str.join` of Python: concatenate with a separator. -/
def joinSep (sep : String) : List String → String
  | [] => ""
  | [x] => x
  | x :: xs => x ++ sep ++ joinSep sep xs

/-- An advisor spec dictionary ({title, expertise, goal, role}); the lead
spec built at src/app.py:1340-1344 carries no role, modelled as `role = ""`
(the role field is never read by the fast path). -/
structure SpecDict where
  title : String
  expertise : String
  goal : String
  role : String
deriving DecidableEq

/-- The model-invocation capability: (model id, system text, user text) to
either a raised exception or the response content. -/
abbrev ChatFn := String → String → String → Except Unit String

/-- The per-future recovery of src/app.py:922-926: a raised exception is
converted to the empty output (`except Exception: member_outputs.append("")`,
and `fut.result() or ""` likewise maps a missing content to `""`). -/
def recover (r : Except Unit String) : String :=
  match r with
  | .ok s => s
  | .error _ => ""

/-- `ADVICE_RULE` (src/app.py:500-503). -/
def ADVICE_RULE : String :=
  "Advisors must provide actionable advice (specific actions and why), not just critique. Include at least one concrete recommended action and an alternative with tradeoffs, when applicable."

/-- `ACTIONABILITY_RULE` (src/app.py:494-497). -/
def ACTIONABILITY_RULE : String :=
  "Recommendation must be a numbered action plan (3–7 items). For each action, specify: Action, Owner, Deadline, Steps, Tools/Resources, Success Metric, Risk & Mitigation. Avoid vague language."

/-- `context_block = "\n\n".join(contexts) if contexts else ""`
(src/app.py:901). -/
def context_block (contexts : List String) : String :=
  if contexts = [] then "" else joinSep "\n\n" contexts

/-- The member system message of `member_prompt` (src/app.py:903-907). -/
def member_system (m : SpecDict) : String :=
  "You are " ++ m.title ++ ". Expertise: " ++ m.expertise ++ ". Goal: "
    ++ m.goal ++ ". " ++ ADVICE_RULE ++ " " ++ ACTIONABILITY_RULE

/-- The member user message of `member_prompt` (src/app.py:908-912). -/
def member_user (agenda : String) (contexts : List String) : String :=
  "Agenda:\n" ++ agenda ++ "\n\n"
    ++ (if context_block contexts = "" then ""
        else "Context:\n" ++ context_block contexts ++ "\n\n")
    ++ "Provide your actionable advice now. Be concise."

/-- The member fan-out of src/app.py:916-926: one recovered output per
member spec, in roster order (futures are submitted and then awaited in
`member_specs` order). -/
def member_outputs (chat : ChatFn) (model_name agenda : String)
    (contexts : List String) (member_specs : List SpecDict) : List String :=
  member_specs.map
    (fun m => recover (chat model_name (member_system m)
      (member_user agenda contexts)))

/-- One tag of the members block: `f"[member {i+1}]\n{out}"`
(src/app.py:934). -/
def member_tag (i : Nat) (out : String) : String :=
  "[member " ++ toString (i + 1) ++ "]\n" ++ out

/-- The tagged successful outputs of src/app.py:933-935: enumerate the
outputs from roster position `i`, keep those whose stripped text is
non-empty, and tag each by its roster position. -/
def tagMembers : Nat → List String → List String
  | _, [] => []
  | i, out :: rest =>
    if pyStrip out = "" then tagMembers (i + 1) rest
    else member_tag i out :: tagMembers (i + 1) rest

/-- `members_block` (src/app.py:933-935). -/
def members_block (outs : List String) : String :=
  joinSep "\n\n" (tagMembers 0 outs)

/-- The lead system message (src/app.py:929-932). -/
def lead_system (lead_spec : SpecDict) : String :=
  "You are " ++ lead_spec.title ++ ". Expertise: " ++ lead_spec.expertise
    ++ ". Goal: " ++ lead_spec.goal ++ ". " ++ ACTIONABILITY_RULE

/-- The lead user message (src/app.py:936-941). -/
def lead_user (agenda : String) (contexts : List String)
    (outs : List String) : String :=
  "Agenda:\n" ++ agenda ++ "\n\n"
    ++ (if context_block contexts = "" then ""
        else "Context:\n" ++ context_block contexts ++ "\n\n")
    ++ (if members_block outs = "" then ""
        else "Team member advice:\n" ++ members_block outs ++ "\n\n")
    ++ "Produce the final consensus in markdown."

/-- `run_fast_completions` (src/app.py:892-943).  The member fan-out is
failure-isolated; the final lead `_chat` call at src/app.py:942 is *not*
wrapped in a try/except, so a raised lead invocation propagates
(`.error ()`); an empty lead response is replaced by the fallback summary
(`summary_md or "(No summary generated)"`).  `num_rounds` is accepted (with
default 1 at the call sites) but never read. -/
def run_fast_completions (chat : ChatFn) (agenda : String)
    (contexts : List String) (lead_spec : SpecDict)
    (member_specs : List SpecDict) (model_name : String)
    (num_rounds : Nat) : Except Unit String :=
  let _ := num_rounds
  let outs := member_outputs chat model_name agenda contexts member_specs
  match chat model_name (lead_system lead_spec)
      (lead_user agenda contexts outs) with
  | .error e => .error e
  | .ok summary_md =>
    .ok (if summary_md = "" then "(No summary generated)" else summary_md)

/-- The model invocations issued by one `run_fast_completions` round, as
(model id, system text, user text) triples: one per member spec plus the
lead synthesis call. -/
def issued_invocations (chat : ChatFn) (agenda : String)
    (contexts : List String) (lead_spec : SpecDict)
    (member_specs : List SpecDict) (model_name : String)
    (num_rounds : Nat) : List (String × String × String) :=
  let _ := num_rounds
  member_specs.map
    (fun m => (model_name, member_system m, member_user agenda contexts))
  ++ [(model_name, lead_system lead_spec,
      lead_user agenda contexts
        (member_outputs chat model_name agenda contexts member_specs))]

/-- Whether the invocation for member spec `m` fails in the sense of the
spec: the call raises, or its returned content is blank. -/
def member_failed (chat : ChatFn) (model_name agenda : String)
    (contexts : List String) (m : SpecDict) : Bool :=
  match chat model_name (member_system m) (member_user agenda contexts) with
  | .error _ => true
  | .ok s => pyStrip s == ""

/-!
## Concurrency model for the member fan-out (src/app.py:915-926)

The `ThreadPoolExecutor` completes the submitted member calls in an
arbitrary order; `fut.result()` retrieves the result of one specific
future.  We model an execution of the pool by its completion log — the
temporal sequence of (submission index, recovered result) events, indexed
by an arbitrary completion order — and the collection loop
(`for fut in futures: member_outputs.append(...)`) as a lookup of each
submission index in that log.
-/

/-- The completion log of one pool execution: the recovered member results
in the order `order` in which the pool happened to finish them (indices
outside the task list produce no event). -/
def completionLog (tasks : List String) : List Nat → List (Nat × String)
  | [] => []
  | i :: rest =>
    match tasks[i]? with
    | some t => (i, t) :: completionLog tasks rest
    | none => completionLog tasks rest

/-- The collection loop of src/app.py:922-926: for each of the `n` futures
in submission order, read that future's result from the completion log. -/
def collectResults (n : Nat) (log : List (Nat × String)) :
    List (Option String) :=
  (List.range n).map (fun j => (log.find? (fun p => p.1 == j)).map Prod.snd)

/-- Looking up a submitted index in the completion log of any schedule that
completed it yields exactly that task's result. -/
theorem completionLog_find (tasks : List String) (j : Nat)
    (hj : j < tasks.length) :
    ∀ order : List Nat, j ∈ order →
      (completionLog tasks order).find? (fun p => p.1 == j)
        = some (j, tasks[j]) := by
  intro order
  induction order with
  | nil => intro h; cases h
  | cons i rest ih =>
    intro hmem
    by_cases hij : i = j
    · subst hij
      rw [completionLog, List.getElem?_eq_getElem hj]
      simp [List.find?_cons]
    · have hrest : j ∈ rest := by
        cases List.mem_cons.mp hmem with
        | inl h => exact absurd h.symm hij
        | inr h => exact h
      rw [completionLog]
      cases hti : tasks[i]? with
      | some t =>
        have : ((i, t).1 == j) = false := by simp [hij]
        simp only [List.find?_cons, this]
        exact ih hrest
      | none => exact ih hrest

/-- C2: for every roster and every completion order of the concurrent
member invocations, the collected member-results sequence has exactly one
entry per member spec and is ordered by roster position — the i-th result
is the recovered output of the i-th member spec — because the futures are
awaited in submission (roster) order, not completion order. -/
theorem results_in_roster_order (chat : ChatFn) (model_name agenda : String)
    (contexts : List String) (member_specs : List SpecDict)
    (order : List Nat)
    (hperm : order.Perm (List.range member_specs.length)) :
    (member_outputs chat model_name agenda contexts member_specs).length
      = member_specs.length ∧
    collectResults member_specs.length
        (completionLog
          (member_outputs chat model_name agenda contexts member_specs) order)
      = (member_outputs chat model_name agenda contexts member_specs).map
          some := by
  have hlen : (member_outputs chat model_name agenda contexts
      member_specs).length = member_specs.length := by
    simp [member_outputs]
  refine ⟨hlen, ?_⟩
  apply List.ext_getElem
  · simp [collectResults, hlen]
  · intro n h1 h2
    have hn : n < member_specs.length := by
      simpa [collectResults] using h1
    have hnt : n < (member_outputs chat model_name agenda contexts
        member_specs).length := by omega
    have hmem : n ∈ order := hperm.mem_iff.mpr (List.mem_range.mpr hn)
    simp only [collectResults, List.getElem_map, List.getElem_range]
    rw [completionLog_find _ n hnt order hmem]
    simp

/-- Concrete fixtures used by the witnesses below. -/
def wLead : SpecDict := ⟨"Lead Advisor", "synthesis", "consensus", ""⟩

def wA : SpecDict := ⟨"Alpha", "ea", "ga", "ra"⟩

def wB : SpecDict := ⟨"Beta", "eb", "gb", "rb"⟩

def wC : SpecDict := ⟨"Gamma", "ec", "gc", "rc"⟩

/-- A model invoker that answers every call with `"advice"`. -/
def chatOkW : ChatFn := fun _ _ _ => .ok "advice"

/-- A model invoker that raises exactly on member `wB`'s invocation. -/
def chatFailB : ChatFn := fun _ sys _ =>
  if sys = member_system wB then .error () else .ok "advice"

set_option maxRecDepth 8000 in
/-- Witness for `results_in_roster_order`: two members whose invocations
complete in reversed order. -/
theorem results_in_roster_order_witness :
    (member_outputs chatOkW "gpt-5-nano" "case" [] [wA, wB]).length
      = ([wA, wB] : List SpecDict).length ∧
    collectResults ([wA, wB] : List SpecDict).length
        (completionLog (member_outputs chatOkW "gpt-5-nano" "case" [] [wA, wB])
          [1, 0])
      = (member_outputs chatOkW "gpt-5-nano" "case" [] [wA, wB]).map some :=
  results_in_roster_order chatOkW "gpt-5-nano" "case" [] [wA, wB] [1, 0]
    (by decide)

/-- Counting the non-blank outputs is counting the complement of the blank
ones. -/
theorem countP_not_blank (outs : List String) :
    outs.countP (fun o => !(pyStrip o == ""))
      = outs.length - outs.countP (fun o => pyStrip o == "") := by
  induction outs with
  | nil => rfl
  | cons o rest ih =>
    have hle : rest.countP (fun o => pyStrip o == "") ≤ rest.length :=
      List.countP_le_length _
    cases hb : pyStrip o == "" with
    | true => simp [List.countP_cons, hb, ih]
    | false => simp [List.countP_cons, hb, ih]; omega

/-- The tagged successful outputs are exactly as many as the non-blank
outputs. -/
theorem tagMembers_length (outs : List String) :
    ∀ i : Nat, (tagMembers i outs).length
      = outs.countP (fun o => !(pyStrip o == "")) := by
  induction outs with
  | nil => intro i; rfl
  | cons out rest ih =>
    intro i
    by_cases h : pyStrip out = ""
    · simp [tagMembers, h, List.countP_cons, ih]
    · simp [tagMembers, h, List.countP_cons, ih]

/-- Membership in the tagged successful outputs: exactly the non-blank
outputs appear, each tagged by its position offset by the enumeration
start. -/
theorem tagMembers_mem (outs : List String) :
    ∀ (i : Nat) (s : String),
      s ∈ tagMembers i outs ↔
        ∃ j, ∃ h : j < outs.length,
          ¬(pyStrip outs[j] = "") ∧ s = member_tag (i + j) outs[j] := by
  induction outs with
  | nil => intro i s; simp [tagMembers]
  | cons out rest ih =>
    intro i s
    by_cases h : pyStrip out = ""
    · rw [tagMembers, if_pos h, ih (i + 1) s]
      constructor
      · rintro ⟨j, hj, hb, hs⟩
        refine ⟨j + 1, by simpa using Nat.succ_lt_succ hj, ?_, ?_⟩
        · simpa [List.getElem_cons_succ] using hb
        · have : i + (j + 1) = i + 1 + j := by omega
          simpa [List.getElem_cons_succ, this] using hs
      · rintro ⟨j, hj, hb, hs⟩
        cases j with
        | zero => exact absurd h (by simpa using hb)
        | succ jp =>
          refine ⟨jp, by simpa using Nat.lt_of_succ_lt_succ hj, ?_, ?_⟩
          · simpa [List.getElem_cons_succ] using hb
          · have : i + (jp + 1) = i + 1 + jp := by omega
            simpa [List.getElem_cons_succ, this] using hs
    · rw [tagMembers, if_neg h]
      simp only [List.mem_cons]
      rw [ih (i + 1) s]
      constructor
      · rintro (hs | ⟨j, hj, hb, hs⟩)
        · exact ⟨0, by simp, by simpa using h, by simpa using hs⟩
        · refine ⟨j + 1, by simpa using Nat.succ_lt_succ hj, ?_, ?_⟩
          · simpa [List.getElem_cons_succ] using hb
          · have : i + (j + 1) = i + 1 + j := by omega
            simpa [List.getElem_cons_succ, this] using hs
      · rintro ⟨j, hj, hb, hs⟩
        cases j with
        | zero => exact Or.inl (by simpa using hs)
        | succ jp =>
          refine Or.inr ⟨jp, by simpa using Nat.lt_of_succ_lt_succ hj, ?_, ?_⟩
          · simpa [List.getElem_cons_succ] using hb
          · have : i + (jp + 1) = i + 1 + jp := by omega
            simpa [List.getElem_cons_succ, this] using hs

/-- A member's recovered output is blank precisely when its invocation
failed (raised, or returned blank content). -/
theorem member_outputs_blank (chat : ChatFn) (model_name agenda : String)
    (contexts : List String) (member_specs : List SpecDict) :
    (member_outputs chat model_name agenda contexts member_specs).countP
        (fun o => pyStrip o == "")
      = member_specs.countP (member_failed chat model_name agenda contexts) := by
  rw [member_outputs, List.countP_map]
  refine List.countP_congr (fun m _ => ?_)
  simp only [Function.comp]
  cases hr : chat model_name (member_system m) (member_user agenda contexts) with
  | error e =>
    simp only [recover, member_failed, hr]
    decide
  | ok s => simp [recover, member_failed, hr]

/-- C1 counterexample: a round with M = 1 member whose invocation succeeds
is a round in which exactly k = 0 member invocations fail, yet when the
*lead* invocation raises, `run_fast_completions` propagates the error to
the caller (the lead `_chat` call at src/app.py:942 has no try/except), so
the caller does not receive a member-results round at all.  Here the
invoker raises on every call, so the single member fails too (k = 1 of
M = 1) and still the error escapes instead of an all-failed round
result. -/
theorem run_fast_error_propagates_cex :
    run_fast_completions (fun _ _ _ => .error ()) "case" []
      ⟨"Lead Advisor", "synthesis", "consensus", ""⟩
      [⟨"Alpha", "ea", "ga", "ra"⟩] "gpt-5-nano" 1 = .error () := rfl

/-- C1 (amended): for every roster with M members and every round in which
exactly k member invocations fail (raise, or return blank — empty or
whitespace-only — content), *provided the lead invocation itself returns a
response*, the orchestrator completes the round: the member-results
sequence has exactly M entries, exactly k of them blank (the failed ones),
no error propagates to the caller, and the tagged "Team member advice"
entries of the lead synthesis user message are exactly the M − k
successful outputs, each tagged by its roster position.  (If the lead
invocation raises, the error does propagate.) -/
theorem member_failure_isolation (chat : ChatFn) (agenda : String)
    (contexts : List String) (lead_spec : SpecDict)
    (member_specs : List SpecDict) (model_name : String) (num_rounds : Nat)
    (k : Nat)
    (hk : k = member_specs.countP
      (member_failed chat model_name agenda contexts))
    (s : String)
    (hlead : chat model_name (lead_system lead_spec)
        (lead_user agenda contexts
          (member_outputs chat model_name agenda contexts member_specs))
      = .ok s) :
    (member_outputs chat model_name agenda contexts member_specs).length
      = member_specs.length ∧
    (member_outputs chat model_name agenda contexts member_specs).countP
        (fun o => pyStrip o == "") = k ∧
    (tagMembers 0
        (member_outputs chat model_name agenda contexts member_specs)).length
      = member_specs.length - k ∧
    run_fast_completions chat agenda contexts lead_spec member_specs
        model_name num_rounds
      = .ok (if s = "" then "(No summary generated)" else s) ∧
    (∀ str : String,
      str ∈ tagMembers 0
          (member_outputs chat model_name agenda contexts member_specs) ↔
        ∃ j, ∃ h : j <
            (member_outputs chat model_name agenda contexts
              member_specs).length,
          ¬(pyStrip
              (member_outputs chat model_name agenda contexts
                member_specs)[j] = "") ∧
          str = member_tag j
            (member_outputs chat model_name agenda contexts
              member_specs)[j]) := by
  have hlen : (member_outputs chat model_name agenda contexts
      member_specs).length = member_specs.length := by
    simp [member_outputs]
  have hblank : (member_outputs chat model_name agenda contexts
        member_specs).countP (fun o => pyStrip o == "") = k :=
    (member_outputs_blank chat model_name agenda contexts
      member_specs).trans hk.symm
  refine ⟨hlen, hblank, ?_, ?_, ?_⟩
  · rw [tagMembers_length, countP_not_blank, hlen, hblank]
  · simp only [run_fast_completions, hlead]
  · intro str
    rw [tagMembers_mem]
    simp only [Nat.zero_add]

set_option maxRecDepth 8000 in
/-- Witness for `member_failure_isolation`: three members of which exactly
the second one raises, and a lead invocation that answers. -/
theorem member_failure_isolation_witness :
    (member_outputs chatFailB "gpt-5-nano" "case" [] [wA, wB, wC]).length
      = ([wA, wB, wC] : List SpecDict).length ∧
    (member_outputs chatFailB "gpt-5-nano" "case" [] [wA, wB, wC]).countP
        (fun o => pyStrip o == "") = 1 ∧
    (tagMembers 0
        (member_outputs chatFailB "gpt-5-nano" "case" [] [wA, wB, wC])).length
      = ([wA, wB, wC] : List SpecDict).length - 1 ∧
    run_fast_completions chatFailB "case" [] wLead [wA, wB, wC]
        "gpt-5-nano" 1
      = .ok (if "advice" = "" then "(No summary generated)" else "advice") ∧
    (∀ str : String,
      str ∈ tagMembers 0
          (member_outputs chatFailB "gpt-5-nano" "case" [] [wA, wB, wC]) ↔
        ∃ j, ∃ h : j <
            (member_outputs chatFailB "gpt-5-nano" "case" []
              [wA, wB, wC]).length,
          ¬(pyStrip
              (member_outputs chatFailB "gpt-5-nano" "case" []
                [wA, wB, wC])[j] = "") ∧
          str = member_tag j
            (member_outputs chatFailB "gpt-5-nano" "case" []
              [wA, wB, wC])[j]) :=
  member_failure_isolation chatFailB "case" [] wLead [wA, wB, wC]
    "gpt-5-nano" 1 1 (by decide) "advice" rfl

/-- C4 counterexample: when the lead synthesis invocation raises, the
orchestrator does not return a fallback round result — the error
propagates (the lead `_chat` call at src/app.py:942 is outside any
try/except), so a round does *not* always yield a result to the caller. -/
theorem lead_failure_cex :
    run_fast_completions (fun _ _ _ => .error ()) "agenda text" []
      ⟨"Attending Physician", "ebm", "synthesize", ""⟩
      [⟨"Radiology", "imaging", "recommend imaging", "radiology"⟩]
      "gpt-5-nano" 1 = .error () := rfl

/-- C4 (amended): if the lead synthesis invocation *returns* (rather than
raises), the orchestrator always produces a summary: the fixed fallback
placeholder `"(No summary generated)"` when the returned text is empty,
and the returned text itself otherwise.  A raising lead invocation instead
propagates the error to the caller. -/
theorem lead_empty_fallback (chat : ChatFn) (agenda : String)
    (contexts : List String) (lead_spec : SpecDict)
    (member_specs : List SpecDict) (model_name : String) (num_rounds : Nat)
    (s : String)
    (hlead : chat model_name (lead_system lead_spec)
        (lead_user agenda contexts
          (member_outputs chat model_name agenda contexts member_specs))
      = .ok s) :
    run_fast_completions chat agenda contexts lead_spec member_specs
        model_name num_rounds
      = .ok (if s = "" then "(No summary generated)" else s) := by
  simp only [run_fast_completions, hlead]

/-- A model invoker that answers every call with empty content. -/
def chatEmptyW : ChatFn := fun _ _ _ => .ok ""

/-- Witness for `lead_empty_fallback`: every invocation returns empty
content; the round completes with the fallback summary. -/
theorem lead_empty_fallback_witness :
    run_fast_completions chatEmptyW "case" [] wLead [wA] "gpt-5-nano" 1
      = .ok (if "" = "" then "(No summary generated)" else "") :=
  lead_empty_fallback chatEmptyW "case" [] wLead [wA] "gpt-5-nano" 1 "" rfl

/-- C10: `run_fast_completions` accepts a `num_rounds` argument but never
reads it: two calls identical in every other argument issue the same
member and lead invocations and return the same summary whatever
`num_rounds` values they pass. -/
theorem num_rounds_irrelevant (chat : ChatFn) (agenda : String)
    (contexts : List String) (lead_spec : SpecDict)
    (member_specs : List SpecDict) (model_name : String) (r1 r2 : Nat) :
    run_fast_completions chat agenda contexts lead_spec member_specs
        model_name r1
      = run_fast_completions chat agenda contexts lead_spec member_specs
          model_name r2 ∧
    issued_invocations chat agenda contexts lead_spec member_specs
        model_name r1
      = issued_invocations chat agenda contexts lead_spec member_specs
          model_name r2 :=
  ⟨rfl, rfl⟩

/-!
## Round cache (src/app.py:983-1028)

`run_meeting_cached` is decorated with `@st.cache_data(ttl=60*60*24)`:
Streamlit memoizes the function on a key derived from *all* of its
arguments — `agenda, agenda_questions, agenda_rules, contexts, num_rounds,
pubmed_search, team_lead_data, team_members_data, save_name` — with a
time-bounded validity window.  We model the memo table explicitly as an
association list from the full argument tuple to the stored summary plus
its storage time, and one call through the wrapper as: look the tuple up
(valid while `now - storedAt < ttl`); on a hit return the stored summary
without executing; on a miss execute the wrapped body and store the
result.  The wrapped body itself (agent deserialization, the gpt-5 to
gpt-4.1-nano model mapping, and `run_meeting`) is abstracted as the
function `exec`, since the claims under test concern only the caching
key. -/

/-- A serialized `Agent` dict (src/app.py:963-970). -/
structure AgentData where
  title : String
  expertise : String
  goal : String
  role : String
  model : String
deriving DecidableEq

/-- The full argument tuple of `run_meeting_cached` (src/app.py:984-994) —
the key hashed by `st.cache_data`.  `save_name` is among the arguments and
therefore part of the cache key. -/
structure MeetingArgs where
  agenda : String
  agenda_questions : List String
  agenda_rules : List String
  contexts : List String
  num_rounds : Nat
  pubmed_search : Bool
  team_lead_data : AgentData
  team_members_data : List AgentData
  save_name : String
deriving DecidableEq

/-- One entry of the memo table: argument tuple, stored summary, storage
time. -/
structure CacheEntry where
  key : MeetingArgs
  value : String
  storedAt : Int
deriving DecidableEq

/-- One call through the `st.cache_data` wrapper of `run_meeting_cached`:
returns the summary, the updated memo table, and whether the wrapped body
(the meeting execution) actually ran. -/
def run_meeting_cached_call (exec : MeetingArgs → String) (ttl now : Int)
    (cache : List CacheEntry) (args : MeetingArgs) :
    String × List CacheEntry × Bool :=
  match cache.find?
      (fun e => e.key == args && decide (now - e.storedAt < ttl)) with
  | some e => (e.value, cache, false)
  | none =>
    let r := exec args
    (r, ⟨args, r, now⟩ :: cache, true)

/-- A sample argument tuple. -/
def exArgs1 : MeetingArgs :=
  ⟨"chest pain case", ["q1"], ["r1"], ["ctx"], 1, false,
    ⟨"Attending Physician", "ebm", "synthesize", "team lead", "gpt-5-nano"⟩,
    [⟨"Radiology", "imaging", "recommend imaging", "radiology",
      "gpt-5-nano"⟩],
    "web_00001"⟩

/-- `exArgs1` with only the session name changed. -/
def exArgs2 : MeetingArgs := { exArgs1 with save_name := "web_00002" }

/-- C3 counterexample: two round requests identical in agenda, questions,
rules, contexts, round count, and full roster but differing in the session
name are *not* treated as the same computation: the second call misses the
cache (its key differs, since `save_name` is among the hashed arguments)
and the meeting body executes a second time — two executions for the two
calls, where the claim requires one. -/
theorem cache_session_name_cex :
    (run_meeting_cached_call (fun _ => "S") 86400 0 [] exArgs1).2.2
      = true ∧
    (run_meeting_cached_call (fun _ => "S") 86400 0
        (run_meeting_cached_call (fun _ => "S") 86400 0 [] exArgs1).2.1
        exArgs2).2.2 = true ∧
    exArgs2.save_name ≠ exArgs1.save_name ∧
    exArgs2.agenda = exArgs1.agenda ∧
    exArgs2.agenda_questions = exArgs1.agenda_questions ∧
    exArgs2.agenda_rules = exArgs1.agenda_rules ∧
    exArgs2.contexts = exArgs1.contexts ∧
    exArgs2.num_rounds = exArgs1.num_rounds ∧
    exArgs2.pubmed_search = exArgs1.pubmed_search ∧
    exArgs2.team_lead_data = exArgs1.team_lead_data ∧
    exArgs2.team_members_data = exArgs1.team_members_data := by
  refine ⟨by decide, by decide, by decide, by decide, by decide, by decide,
    by decide, by decide, by decide, by decide, by decide⟩

/-- C3 (amended): the session name is *included* in the cache key.  Within
the validity window, a second call identical in **all** fields including
the session name is a cache hit — it returns the stored summary with no
second execution — whereas a second call differing only in the session
name misses the cache and executes the meeting body again. -/
theorem cache_fingerprint_includes_save_name
    (exec : MeetingArgs → String) (ttl t1 t2 : Int)
    (args args2 : MeetingArgs)
    (hsame : args2 = { args with save_name := args2.save_name })
    (hdiff : args2.save_name ≠ args.save_name)
    (hvalid : t2 - t1 < ttl) :
    (run_meeting_cached_call exec ttl t1 [] args).2.2 = true ∧
    (run_meeting_cached_call exec ttl t2
        (run_meeting_cached_call exec ttl t1 [] args).2.1 args).2.2
      = false ∧
    (run_meeting_cached_call exec ttl t2
        (run_meeting_cached_call exec ttl t1 [] args).2.1 args).1
      = (run_meeting_cached_call exec ttl t1 [] args).1 ∧
    (run_meeting_cached_call exec ttl t2
        (run_meeting_cached_call exec ttl t1 [] args).2.1 args2).2.2
      = true := by
  have hne : args2 ≠ args := fun h => hdiff (by rw [h])
  have hc1 : run_meeting_cached_call exec ttl t1 [] args
      = (exec args, [⟨args, exec args, t1⟩], true) := rfl
  refine ⟨by rw [hc1], ?_, ?_, ?_⟩
  · rw [hc1]
    simp [run_meeting_cached_call, List.find?_cons, hvalid]
  · rw [hc1]
    simp [run_meeting_cached_call, List.find?_cons, hvalid]
  · rw [hc1]
    have hb : ((⟨args, exec args, t1⟩ : CacheEntry).key == args2) = false :=
      beq_eq_false_iff_ne.mpr (fun h => hne (h.symm))
    simp [run_meeting_cached_call, List.find?_cons, hb]

/-- Witness for `cache_fingerprint_includes_save_name` at the sample
argument tuples. -/
theorem cache_fingerprint_includes_save_name_witness :
    (run_meeting_cached_call (fun _ => "S") 86400 0 [] exArgs1).2.2
      = true ∧
    (run_meeting_cached_call (fun _ => "S") 86400 10
        (run_meeting_cached_call (fun _ => "S") 86400 0 [] exArgs1).2.1
        exArgs1).2.2 = false ∧
    (run_meeting_cached_call (fun _ => "S") 86400 10
        (run_meeting_cached_call (fun _ => "S") 86400 0 [] exArgs1).2.1
        exArgs1).1
      = (run_meeting_cached_call (fun _ => "S") 86400 0 [] exArgs1).1 ∧
    (run_meeting_cached_call (fun _ => "S") 86400 10
        (run_meeting_cached_call (fun _ => "S") 86400 0 [] exArgs1).2.1
        exArgs2).2.2 = true :=
  cache_fingerprint_includes_save_name (fun _ => "S") 86400 0 10
    exArgs1 exArgs2 (by decide) (by decide) (by decide)

/-!
## Web session store (src/app.py:1222-1269)

Sessions are persisted under `advisor_meetings/` as two artifacts per
session, `<stem>.md` and `<stem>.json`.  The directory is modelled as a
list of files, each with a stem, an extension and a last-modified time
(`st_mtime`, modelled as `Int`); the app only ever creates `.md`/`.json`
files, and `Path.stem`/`glob("web_*.md")` act on the (stem, extension)
decomposition exactly as modelled.  Python's `sorted` on the stem set and
the `sorted(..., key=mtime_for, reverse=True)` ranking are reproduced with
a stable insertion sort.
-/

/-- The two artifact kinds a session consists of. -/
inductive FileExt
  | md
  | json
deriving DecidableEq

/-- One file of the store: stem, extension, last-modified time. -/
structure FsFile where
  stem : String
  ext : FileExt
  mtime : Int
deriving DecidableEq

/-- The `advisor_meetings` directory. -/
abbrev Dir := List FsFile

/-- Lexicographic comparison of character lists by code point — the order
Python's `sorted` uses on ASCII strings. -/
def lexLe : List Char → List Char → Bool
  | [], _ => true
  | _ :: _, [] => false
  | a :: as, b :: bs =>
    if a.toNat < b.toNat then true
    else if b.toNat < a.toNat then false
    else lexLe as bs

/-- String comparison by code points. -/
def strLe (a b : String) : Bool := lexLe a.data b.data

/-- Python's `sorted` on a list of strings (stable; lexicographic). -/
def sortStrings (l : List String) : List String :=
  l.insertionSort (fun a b => strLe a b = true)

/-- `_get_web_session_basenames` (src/app.py:1222-1226): the sorted set of
stems of files matching `web_*.md` or `web_*.json`.  On the (stem, ext)
decomposition the glob matches exactly the files whose stem starts with
`"web_"` (every file carries one of the two extensions). -/
def _get_web_session_basenames (dir : Dir) : List String :=
  sortStrings
    (((dir.filter (fun f => "web_".data.isPrefixOf f.stem.data)).map
      (fun f => f.stem)).dedup)

/-- `int` of a digit run: `some` when the character list is a non-empty
all-digit run (the regex group `(\d+)`), else `none`. -/
def parseDigits (cs : List Char) : Option Nat :=
  if cs ≠ [] ∧ cs.all Char.isDigit then
    some (cs.foldl (fun a c => a * 10 + (c.toNat - 48)) 0)
  else none

/-- `re.match(r"web_(\d+)$", stem)` followed by `int(m.group(1))`
(src/app.py:1233-1240). -/
def parseWebStem (stem : String) : Option Nat :=
  if "web_".data.isPrefixOf stem.data then parseDigits (stem.data.drop 4)
  else none

/-- One iteration of the scan loop of `_make_next_web_session_name`
(src/app.py:1233-1240): `if m: idx = int(m.group(1));
if idx > max_idx: max_idx = idx`. -/
def webStep (acc : Nat) (stem : String) : Nat :=
  match parseWebStem stem with
  | some idx => if acc < idx then idx else acc
  | none => acc

/-- The scan of `_make_next_web_session_name` (src/app.py:1231-1240): the
largest numeric suffix among the existing basenames, 0 when none parses. -/
def maxWebIdx (dir : Dir) : Nat :=
  (_get_web_session_basenames dir).foldl webStep 0

/-- `f"{n:05d}"`: decimal digits left-padded with zeros to width 5. -/
def zeroPad5 (n : Nat) : String :=
  let s := toString n
  String.mk (List.replicate (5 - s.data.length) '0') ++ s

/-- `_make_next_web_session_name` (src/app.py:1229-1241):
`f"web_{max_idx + 1:05d}"`. -/
def _make_next_web_session_name (dir : Dir) : String :=
  "web_" ++ zeroPad5 (maxWebIdx dir + 1)

/-- `(save_dir / f"{stem}{ext}").exists()` / `stat`: the file of a given
stem and extension, if present. -/
def findFile (dir : Dir) (stem : String) (ext : FileExt) : Option FsFile :=
  dir.find? (fun f => f.stem == stem && f.ext == ext)

/-- `mtime_for` (src/app.py:1250-1258): the max of the last-modified times
of the session's existing artifacts, 0.0 when neither exists. -/
def mtime_for (dir : Dir) (stem : String) : Int :=
  match ([findFile dir stem .md, findFile dir stem .json].filterMap id).map
      (fun f => f.mtime) with
  | [] => 0
  | t :: ts => ts.foldl max t

/-- `_prune_web_sessions` (src/app.py:1244-1269): when more than
`max_sessions` sessions exist, rank the stems by last-modified time,
newest first (Python's stable `sorted(..., reverse=True)`), and delete
both artifacts of every stem beyond the first `max_sessions`. -/
def _prune_web_sessions (dir : Dir) (max_sessions : Nat) : Dir :=
  let stems := _get_web_session_basenames dir
  if stems.length ≤ max_sessions then dir
  else
    let sorted := stems.insertionSort
      (fun a b => mtime_for dir b ≤ mtime_for dir a)
    let to_delete := sorted.drop max_sessions
    dir.filter (fun f => !(to_delete.contains f.stem))

/-- Membership in the session basenames: exactly the stems of `web_`-
prefixed files of the directory. -/
theorem basenames_mem (dir : Dir) (s : String) :
    s ∈ _get_web_session_basenames dir ↔
      ∃ f ∈ dir, f.stem = s ∧ "web_".data.isPrefixOf s.data = true := by
  unfold _get_web_session_basenames sortStrings
  rw [(List.perm_insertionSort _ _).mem_iff, List.mem_dedup, List.mem_map]
  constructor
  · rintro ⟨f, hf, rfl⟩
    rw [List.mem_filter] at hf
    exact ⟨f, hf.1, rfl, hf.2⟩
  · rintro ⟨f, hf, rfl, hp⟩
    exact ⟨f, List.mem_filter.mpr ⟨hf, hp⟩, rfl⟩

/-- The session basenames list the stem set without duplicates. -/
theorem basenames_nodup (dir : Dir) :
    (_get_web_session_basenames dir).Nodup :=
  (List.nodup_dedup _).perm (List.perm_insertionSort _ _).symm

/-- The scan step never decreases the running maximum. -/
theorem webStep_le (acc : Nat) (s : String) : acc ≤ webStep acc s := by
  unfold webStep
  cases hps : parseWebStem s with
  | none => exact Nat.le_refl acc
  | some idx =>
    show acc ≤ if acc < idx then idx else acc
    by_cases h : acc < idx
    · rw [if_pos h]; omega
    · rw [if_neg h]

/-- The scan step absorbs the parsed suffix of the scanned stem. -/
theorem webStep_ge (acc : Nat) (s : String) (n : Nat)
    (h : parseWebStem s = some n) : n ≤ webStep acc s := by
  unfold webStep
  rw [h]
  show n ≤ if acc < n then n else acc
  by_cases hc : acc < n
  · rw [if_pos hc]
  · rw [if_neg hc]; omega

/-- Folding the scan step never decreases the accumulator. -/
theorem foldl_webStep_le (stems : List String) :
    ∀ acc : Nat, acc ≤ stems.foldl webStep acc := by
  induction stems with
  | nil => intro acc; exact Nat.le_refl acc
  | cons s rest ih =>
    intro acc
    exact le_trans (webStep_le acc s) (ih (webStep acc s))

/-- Every numeric suffix present among the basenames is bounded by the
scanned maximum. -/
theorem maxWebIdx_ge (dir : Dir) (stem : String) (n : Nat)
    (hmem : stem ∈ _get_web_session_basenames dir)
    (hparse : parseWebStem stem = some n) :
    n ≤ maxWebIdx dir := by
  unfold maxWebIdx
  have main : ∀ (stems : List String) (acc : Nat), stem ∈ stems →
      n ≤ stems.foldl webStep acc := by
    intro stems
    induction stems with
    | nil => intro acc h; cases h
    | cons s rest ih =>
      intro acc hm
      cases List.mem_cons.mp hm with
      | inl heq =>
        subst heq
        exact le_trans (webStep_ge acc stem n hparse)
          (foldl_webStep_le rest _)
      | inr hr => exact ih _ hr
  exact main _ 0 hmem

/-- A store in which `web_00001` was modified more recently than
`web_00002`. -/
def exDirReuse : Dir := [⟨"web_00001", .md, 10⟩, ⟨"web_00002", .md, 5⟩]

/-- C6 counterexample: a pruned session's name *can* be reused.  In the
store `exDirReuse` the session `web_00002` exists but is the
least-recently-modified one; pruning with bound 1 deletes it, and the next
assigned name — the zero-padded successor of the maximum *surviving*
suffix — is `web_00002` again, the very name just pruned. -/
theorem session_name_reuse_cex :
    "web_00002" ∈ _get_web_session_basenames exDirReuse ∧
    _get_web_session_basenames (_prune_web_sessions exDirReuse 1)
      = ["web_00001"] ∧
    _make_next_web_session_name (_prune_web_sessions exDirReuse 1)
      = "web_00002" := by
  refine ⟨by decide, by decide, by decide⟩

/-- A store with existing suffixes {1, 2, 4}. -/
def exDir124 : Dir :=
  [⟨"web_00001", .md, 100⟩, ⟨"web_00002", .md, 200⟩,
    ⟨"web_00004", .md, 300⟩]

/-- C6 (amended): the next assigned session name is the fixed prefix
`web_` followed by the zero-padded successor of the maximum existing
numeric suffix (suffix 1 when no sessions exist); given existing suffixes
{1, 2, 4} the next assigned suffix is 5; and the assigned suffix strictly
exceeds every suffix currently present in the store, so names strictly
increase as long as the maximal-suffix session remains stored.  (If
pruning deletes the maximal-suffix session — it ranks by modification
time, not by suffix — a pruned session's name can be reused.) -/
theorem next_session_name_spec (dir : Dir) (stem : String) (n : Nat)
    (hmem : stem ∈ _get_web_session_basenames dir)
    (hparse : parseWebStem stem = some n) :
    _make_next_web_session_name dir = "web_" ++ zeroPad5 (maxWebIdx dir + 1) ∧
    n < maxWebIdx dir + 1 ∧
    _make_next_web_session_name exDir124 = "web_00005" ∧
    _make_next_web_session_name ([] : Dir) = "web_00001" := by
  refine ⟨rfl, ?_, by decide, by decide⟩
  have := maxWebIdx_ge dir stem n hmem hparse
  omega

/-- Witness for `next_session_name_spec` at the {1, 2, 4} store. -/
theorem next_session_name_spec_witness :
    _make_next_web_session_name exDir124
      = "web_" ++ zeroPad5 (maxWebIdx exDir124 + 1) ∧
    4 < maxWebIdx exDir124 + 1 ∧
    _make_next_web_session_name exDir124 = "web_00005" ∧
    _make_next_web_session_name ([] : Dir) = "web_00001" :=
  next_session_name_spec exDir124 "web_00004" 4 (by decide) (by decide)

/-- `find?` commutes with a filter whose predicate is implied by the
search predicate. -/
theorem find?_filter_of_imp {α : Type} (l : List α) (p q : α → Bool)
    (h : ∀ x, p x = true → q x = true) :
    (l.filter q).find? p = l.find? p := by
  induction l with
  | nil => rfl
  | cons x rest ih =>
    cases hp : p x with
    | true =>
      have hq := h x hp
      simp [List.filter_cons, hq, List.find?_cons, hp]
    | false =>
      cases hq : q x with
      | true => simp [List.filter_cons, hq, List.find?_cons, hp, ih]
      | false => simp [List.filter_cons, hq, List.find?_cons, hp, ih]

/-- C7: pruning a store holding more than `K` sessions under the naming
prefix deletes both artifacts of the sessions ranked oldest by the
last-modified time of either artifact, until exactly `K` sessions remain:
afterwards exactly `K` basenames are left, all of them pre-existing, every
surviving session is at least as recently modified as every deleted one,
the deleted sessions have both artifacts removed, and the surviving
sessions keep their artifacts untouched.  A store with at most `K`
sessions is left entirely unchanged.  (The store default is `K = 5`,
`_prune_web_sessions(save_dir, max_sessions=5)` at src/app.py:1398.) -/
theorem prune_keeps_most_recent (d0 dir : Dir) (K0 K : Nat)
    (hle : (_get_web_session_basenames d0).length ≤ K0)
    (hgt : K < (_get_web_session_basenames dir).length) :
    _prune_web_sessions d0 K0 = d0 ∧
    (_get_web_session_basenames (_prune_web_sessions dir K)).length = K ∧
    (∀ s ∈ _get_web_session_basenames (_prune_web_sessions dir K),
      s ∈ _get_web_session_basenames dir) ∧
    (∀ s ∈ _get_web_session_basenames (_prune_web_sessions dir K),
      ∀ t ∈ _get_web_session_basenames dir,
        t ∉ _get_web_session_basenames (_prune_web_sessions dir K) →
        mtime_for dir t ≤ mtime_for dir s) ∧
    (∀ t ∈ _get_web_session_basenames dir,
      t ∉ _get_web_session_basenames (_prune_web_sessions dir K) →
      findFile (_prune_web_sessions dir K) t .md = none ∧
      findFile (_prune_web_sessions dir K) t .json = none) ∧
    (∀ s ∈ _get_web_session_basenames (_prune_web_sessions dir K),
      findFile (_prune_web_sessions dir K) s .md = findFile dir s .md ∧
      findFile (_prune_web_sessions dir K) s .json = findFile dir s .json) := by
  have hunch : _prune_web_sessions d0 K0 = d0 := by
    simp only [_prune_web_sessions]
    rw [if_pos hle]
  set stems := _get_web_session_basenames dir with hstems
  set r := fun a b : String => mtime_for dir b ≤ mtime_for dir a with hrdef
  haveI hTot : IsTotal String r := ⟨fun a b =>
    le_total (mtime_for dir b) (mtime_for dir a)⟩
  haveI hTrans : IsTrans String r := ⟨fun a b c hab hbc => le_trans hbc hab⟩
  set sorted := stems.insertionSort r with hsorteddef
  have hperm : sorted.Perm stems := List.perm_insertionSort r stems
  have hnodup : sorted.Nodup := (basenames_nodup dir).perm hperm.symm
  have hsortlen : sorted.length = stems.length := hperm.length_eq
  set deleted := sorted.drop K with hdel
  set kept := sorted.take K with hkept
  have hsplit : kept ++ deleted = sorted := List.take_append_drop K sorted
  have hprune : _prune_web_sessions dir K
      = dir.filter (fun f => !(deleted.contains f.stem)) := by
    simp only [_prune_web_sessions]
    rw [if_neg (not_le.mpr hgt)]
  have hsorted : sorted.Sorted r := List.sorted_insertionSort r stems
  have hpairkd : ∀ a ∈ kept, ∀ b ∈ deleted, r a b := by
    have h1 : List.Pairwise r (kept ++ deleted) := by
      rw [hsplit]; exact hsorted
    exact (List.pairwise_append.mp h1).2.2
  have hmem_after : ∀ s, s ∈ _get_web_session_basenames
      (_prune_web_sessions dir K) ↔ (s ∈ stems ∧ s ∉ deleted) := by
    intro s
    rw [hprune, basenames_mem]
    constructor
    · rintro ⟨f, hf, rfl, hp⟩
      rw [List.mem_filter] at hf
      have hnotdel : f.stem ∉ deleted := by
        intro hmemdel
        have h2 := hf.2
        simp only [Bool.not_eq_true'] at h2
        rw [List.contains] at h2
        have h3 : List.elem f.stem deleted = true := List.elem_iff.mpr hmemdel
        rw [h3] at h2
        cases h2
      exact ⟨(basenames_mem dir _).mpr ⟨f, hf.1, rfl, hp⟩, hnotdel⟩
    · rintro ⟨hmem, hnot⟩
      obtain ⟨f, hf, rfl, hp⟩ := (basenames_mem dir s).mp hmem
      refine ⟨f, List.mem_filter.mpr ⟨hf, ?_⟩, rfl, hp⟩
      simp only [Bool.not_eq_true']
      rw [List.contains]
      exact Bool.eq_false_iff.mpr (fun hT => hnot (List.elem_iff.mp hT))
  have hnd_app : (kept ++ deleted).Nodup := by rw [hsplit]; exact hnodup
  have hkept_iff : ∀ s, (s ∈ stems ∧ s ∉ deleted) ↔ s ∈ kept := by
    intro s
    constructor
    · rintro ⟨hmem, hnot⟩
      have hs : s ∈ sorted := hperm.mem_iff.mpr hmem
      rw [← hsplit] at hs
      rcases List.mem_append.mp hs with h | h
      · exact h
      · exact absurd h hnot
    · intro hk
      have hs : s ∈ sorted := by
        rw [← hsplit]
        exact List.mem_append.mpr (Or.inl hk)
      refine ⟨hperm.mem_iff.mp hs, fun hd => ?_⟩
      exact (List.nodup_append.mp hnd_app).2.2 hk hd
  have hkn : kept.Nodup :=
    List.Nodup.sublist (List.take_sublist K sorted) hnodup
  have han : (_get_web_session_basenames
      (_prune_web_sessions dir K)).Nodup := basenames_nodup _
  have hpermak : (_get_web_session_basenames
      (_prune_web_sessions dir K)).Perm kept := by
    refine List.perm_of_nodup_nodup_toFinset_eq han hkn ?_
    refine Finset.ext (fun s => ?_)
    rw [List.mem_toFinset, List.mem_toFinset, hmem_after, hkept_iff]
  have hkeptlen : kept.length = K := by
    rw [hkept, List.length_take, hsortlen]
    omega
  have hlen : (_get_web_session_basenames
      (_prune_web_sessions dir K)).length = K := by
    rw [hpermak.length_eq, hkeptlen]
  have hdelmem : ∀ t ∈ stems,
      t ∉ _get_web_session_basenames (_prune_web_sessions dir K) →
      t ∈ deleted := by
    intro t htm htn
    by_cases hd : t ∈ deleted
    · exact hd
    · exact absurd ((hmem_after t).mpr ⟨htm, hd⟩) htn
  refine ⟨hunch, hlen, ?_, ?_, ?_, ?_⟩
  · intro s hs
    exact ((hmem_after s).mp hs).1
  · intro s hs t htm htn
    have hsk : s ∈ kept := (hkept_iff s).mp ((hmem_after s).mp hs)
    exact hpairkd s hsk t (hdelmem t htm htn)
  · intro t htm htn
    have htd : t ∈ deleted := hdelmem t htm htn
    constructor <;>
    · rw [hprune, findFile, List.find?_eq_none]
      intro f hf hpf
      rw [List.mem_filter] at hf
      have hstem : f.stem = t := by
        have := (Bool.and_eq_true _ _).mp hpf
        exact beq_iff_eq.mp this.1
      have h2 := hf.2
      simp only [Bool.not_eq_true'] at h2
      rw [List.contains] at h2
      have h3 : List.elem f.stem deleted = true :=
        List.elem_iff.mpr (hstem ▸ htd)
      rw [h3] at h2
      cases h2
  · intro s hs
    have hsd : s ∉ deleted := ((hmem_after s).mp hs).2
    have himp : ∀ e : FileExt, ∀ f : FsFile,
        (f.stem == s && f.ext == e) = true →
        (!(deleted.contains f.stem)) = true := by
      intro e f hpf
      have hstem : f.stem = s := by
        have := (Bool.and_eq_true _ _).mp hpf
        exact beq_iff_eq.mp this.1
      simp only [Bool.not_eq_true']
      rw [List.contains]
      exact Bool.eq_false_iff.mpr
        (fun hT => hsd (hstem ▸ List.elem_iff.mp hT))
    constructor <;>
    · rw [hprune, findFile, findFile]
      exact find?_filter_of_imp dir _ _ (himp _)


/-- Witness for `prune_keeps_most_recent`: the {1, 2, 4} store is left
unchanged by pruning with bound 5, and pruned down to its 2
most-recently-modified sessions by pruning with bound 2. -/
theorem prune_keeps_most_recent_witness :
    _prune_web_sessions exDir124 5 = exDir124 ∧
    (_get_web_session_basenames (_prune_web_sessions exDir124 2)).length
      = 2 ∧
    (∀ s ∈ _get_web_session_basenames (_prune_web_sessions exDir124 2),
      s ∈ _get_web_session_basenames exDir124) ∧
    (∀ s ∈ _get_web_session_basenames (_prune_web_sessions exDir124 2),
      ∀ t ∈ _get_web_session_basenames exDir124,
        t ∉ _get_web_session_basenames (_prune_web_sessions exDir124 2) →
        mtime_for exDir124 t ≤ mtime_for exDir124 s) ∧
    (∀ t ∈ _get_web_session_basenames exDir124,
      t ∉ _get_web_session_basenames (_prune_web_sessions exDir124 2) →
      findFile (_prune_web_sessions exDir124 2) t .md = none ∧
      findFile (_prune_web_sessions exDir124 2) t .json = none) ∧
    (∀ s ∈ _get_web_session_basenames (_prune_web_sessions exDir124 2),
      findFile (_prune_web_sessions exDir124 2) s .md
        = findFile exDir124 s .md ∧
      findFile (_prune_web_sessions exDir124 2) s .json
        = findFile exDir124 s .json) :=
  prune_keeps_most_recent exDir124 exDir124 5 2 (by decide) (by decide)
